import Mathlib

/-!
Verification development for the typescript-mcp core: the move/rewrite
engine (`src/ts/tools/ts_move_file.ts`) and the hover session coordinator
(`lsp_get_hover`).  TypeScript functions are shallowly embedded as Lean
functions; file-system reads, the project model and the LSP client are
passed in explicitly as data so every embedded function stays pure and
executable.
-/

namespace TsMcp

/-! ## POSIX path model (Node `path` module, as used by the tools)

The tools call `path.join`, `path.dirname`, `path.resolve`,
`path.normalize`, `path.relative`, `path.basename` and `path.extname`.
These are modelled below on POSIX semantics.  Trailing-slash preservation
of `path.normalize` and the current-working-directory fallback of
`path.resolve`/`path.relative` are not modelled: the tools only apply
these functions to slash-joined paths without trailing slashes. -/

/-! String primitives rebuilt on character lists.  The embedded
functions use these instead of `String.splitOn`, `String.startsWith`,
`String.endsWith` and `String.dropRight` so that every definition
reduces inside the kernel; the semantics agree with the JavaScript
operations on the same data. -/

/-- JavaScript `String.prototype.split` with a one-character separator. -/
def splitOnChar (sep : Char) : List Char → List (List Char)
  | [] => [[]]
  | c :: t =>
    let r := splitOnChar sep t
    if c = sep then [] :: r
    else
      match r with
      | h :: rest => (c :: h) :: rest
      | [] => [[c]]

/-- Split a string on newline characters, keeping empty pieces. -/
def splitLines (s : String) : List String :=
  (splitOnChar '\n' s.toList).map String.mk

def strStartsWith (s p : String) : Bool :=
  p.toList.isPrefixOf s.toList

def strEndsWith (s p : String) : Bool :=
  p.toList.isSuffixOf s.toList

def strDropRight (s : String) (n : Nat) : String :=
  String.mk (s.toList.take (s.toList.length - n))

/-- Normalise a list of path segments: drop empty and `.` segments, let
`..` cancel a previous real segment (`abs` tells whether a leading `..`
may be dropped, as happens at the root of an absolute path). -/
def normStack (abs : Bool) : List String → List String → List String
  | stack, [] => stack.reverse
  | stack, seg :: rest =>
    if seg = "" || seg = "." then normStack abs stack rest
    else if seg = ".." then
      match stack with
      | [] => if abs then normStack abs [] rest else normStack abs [".."] rest
      | top :: stk =>
        if top = ".." then normStack abs (seg :: top :: stk) rest
        else normStack abs stk rest
    else normStack abs (seg :: stack) rest

/-- Segments of a path after normalisation. -/
def normSegs (p : String) : List String :=
  normStack (strStartsWith p "/") [] ((splitOnChar '/' p.toList).map String.mk)

/-- `path.normalize` (POSIX, trailing slash not preserved). -/
def pathNormalize (p : String) : String :=
  let abs := strStartsWith p "/"
  let body := String.intercalate "/" (normSegs p)
  if abs then (if body = "" then "/" else "/" ++ body)
  else (if body = "" then "." else body)

/-- `path.join` on two arguments. -/
def pathJoin (a b : String) : String :=
  let parts := [a, b].filter (fun s => s ≠ "")
  if parts.isEmpty then "." else pathNormalize (String.intercalate "/" parts)

/-- `path.resolve base p` for the bases the tools use (absolute
directories): an absolute `p` wins, otherwise `p` is resolved against
`base`. -/
def pathResolve (base p : String) : String :=
  pathNormalize (if strStartsWith p "/" then p else base ++ "/" ++ p)

/-- `path.dirname` (POSIX). -/
def pathDirname (p : String) : String :=
  let cs := p.toList
  let trimmed := (cs.reverse.dropWhile (fun c => c = '/')).reverse
  match trimmed.reverse.dropWhile (fun c => c ≠ '/') with
  | [] => if strStartsWith p "/" then "/" else "."
  | _ :: beforeRev =>
    let dirRev := beforeRev.dropWhile (fun c => c = '/')
    if dirRev = [] then "/" else String.mk dirRev.reverse

/-- Last path component, trailing slashes stripped (`path.basename p`). -/
def pathBasenameRaw (p : String) : String :=
  let cs := p.toList
  let trimmed := (cs.reverse.dropWhile (fun c => c = '/')).reverse
  String.mk ((trimmed.reverse.takeWhile (fun c => c ≠ '/')).reverse)

/-- `path.basename p ext`: the last component, with suffix `ext` removed
when the component properly ends with it. -/
def pathBasename (p ext : String) : String :=
  let b := pathBasenameRaw p
  if ext ≠ "" && b ≠ ext && strEndsWith b ext then strDropRight b ext.length else b

/-- `path.extname` (POSIX): the suffix of the last component from its
last dot, empty when the dot is absent or leads the component. -/
def pathExtname (p : String) : String :=
  let b := (pathBasenameRaw p).toList
  if b = ['.'] || b = ['.', '.'] then ""
  else
    let afterRev := b.reverse.takeWhile (fun c => c ≠ '.')
    if afterRev.length = b.length then ""
    else if afterRev.length + 1 = b.length && b.head? = some '.' then ""
    else String.mk ('.' :: afterRev.reverse)

/-- `path.relative from to` for resolved inputs: drop the common prefix
of segments, go up once per remaining `from` segment, then down the
remaining `to` segments. -/
def dropCommon : List String → List String → List String × List String
  | a :: as, b :: bs =>
    if a = b then dropCommon as bs else (a :: as, b :: bs)
  | as, bs => (as, bs)

def pathRelative (f t : String) : String :=
  let p := dropCommon (normSegs f) (normSegs t)
  String.intercalate "/" (List.replicate p.1.length ".." ++ p.2)

/-! ## The import-statement pattern

`analyzeImportChanges` scans each line with the global regular expression
`(?:import|from|require)\s*\(?[quote]([^quote]+)[quote]\)?` where `quote`
is any of the three JavaScript quote characters.  The matcher below
reproduces `RegExp.exec` in a loop: leftmost match first, the scan
resumes after each match.  Backtracking never arises for this pattern:
the whitespace run, the optional parenthesis and the quoted capture are
all forced. -/

def singleQuote : Char := Char.ofNat 39

def backQuote : Char := Char.ofNat 96

def isQuoteChar (c : Char) : Bool :=
  c = singleQuote || c = '"' || c = backQuote

/-- Match `\s*\(?[quote]([^quote]+)[quote]\)?` against `l`; on success
return the capture and the remainder of the line after the match. -/
def matchQuoted (l : List Char) : Option (List Char × List Char) :=
  let l1 := l.dropWhile (fun c => c.isWhitespace)
  let l2 := match l1 with
    | c :: rest => if c = '(' then rest else l1
    | [] => l1
  match l2 with
  | c :: rest =>
    if isQuoteChar c then
      let cap := rest.takeWhile (fun d => !(isQuoteChar d))
      let rest2 := rest.dropWhile (fun d => !(isQuoteChar d))
      if cap.isEmpty then none
      else
        match rest2 with
        | _ :: rest3 =>
          let rest4 := match rest3 with
            | e :: r => if e = ')' then r else rest3
            | [] => rest3
          some (cap, rest4)
        | [] => none
    else none
  | [] => none

/-- Try one keyword alternative at the current position. -/
def tryKw (kw l : List Char) : Option (List Char × List Char) :=
  if kw.isPrefixOf l then matchQuoted (l.drop kw.length) else none

/-- Try the three alternatives `import`, `from`, `require` in the order
the regular expression lists them. -/
def tryAt (l : List Char) : Option (List Char × List Char) :=
  (tryKw "import".toList l).orElse fun _ =>
    (tryKw "from".toList l).orElse fun _ =>
      tryKw "require".toList l

/-- All captures of the global regex on one line, leftmost first; `fuel`
bounds the scan (a successful match always consumes at least one
character, so `l.length` fuel is enough). -/
def execSearchAux : Nat → List Char → List String
  | 0, _ => []
  | _ + 1, [] => []
  | fuel + 1, l@(_ :: t) =>
    match tryAt l with
    | some (cap, rest) => String.mk cap :: execSearchAux fuel rest
    | none => execSearchAux fuel t

/-- The import paths captured on one line, in match order. -/
def execImports (line : String) : List String :=
  execSearchAux line.toList.length line.toList

/-- JavaScript `String.prototype.replace` with a string pattern: replace
the first occurrence only. -/
def replaceFirstAux (needle sub : List Char) : List Char → List Char
  | [] => []
  | h :: t =>
    if needle.isPrefixOf (h :: t) then sub ++ List.drop needle.length (h :: t)
    else h :: replaceFirstAux needle sub t

def replaceFirst (hay needle sub : List Char) : List Char :=
  if needle.isEmpty then sub ++ hay else replaceFirstAux needle sub hay

/-! ## Move/rewrite engine (`src/ts/tools/ts_move_file.ts`)

File-system reads are injected as `readFs : String → Except String
String` (the resolved `fs.readFile` promise); the project model's `move`
primitive and the throwing `getOrCreateSourceFileWithRefresh` lookup are
injected through `MoveEnv`.  `MoveTrace` records which effects ran. -/

structure MoveFileResult where
  message : String
  changedFiles : List String
  deriving Repr, DecidableEq

/-- External collaborators of `handleMoveFile`: whether the preflight
source-file refresh throws, and what the project model's move primitive
returns. -/
structure MoveEnv where
  refreshThrows : Bool
  moveResult : Except String MoveFileResult

/-- Effect record of one `handleMoveFile` run: was the delegated move
primitive invoked, was `project.save()` invoked. -/
structure MoveTrace where
  moveCalled : Bool
  saveCalled : Bool
  deriving Repr, DecidableEq

/-- Embedding of `handleMoveFile` (ts_move_file.ts:30-71): resolve both
paths against `root`, preflight-load the source file (an exception
becomes `File not found: ...`), delegate the move, then save. -/
def handleMoveFile (env : MoveEnv) (root oldPath newPath : String) :
    Except String MoveFileResult × MoveTrace :=
  let absoluteOldPath := pathJoin root oldPath
  let _absoluteNewPath := pathJoin root newPath
  let sourceFileResult : Except String Unit :=
    if env.refreshThrows then .error ("File not found: " ++ absoluteOldPath)
    else .ok ()
  match sourceFileResult with
  | .error e => (.error e, ⟨false, false⟩)
  | .ok _ =>
    match env.moveResult with
    | .error e => (.error e, ⟨true, false⟩)
    | .ok v => (.ok v, ⟨true, true⟩)

/-- JavaScript `String.prototype.includes` on character lists. -/
def includesSub (needle : List Char) : List Char → Bool
  | [] => needle.isEmpty
  | h :: t => needle.isPrefixOf (h :: t) || includesSub needle t

/-- The condition of ts_move_file.ts:105-108: the import path resolves
to the normalised new path, or contains the new file's basename without
extension. -/
def importCond (file newPath importPath : String) : Bool :=
  let fileDir := pathDirname file
  let resolvedNewPath := pathResolve fileDir importPath
  let normalizedNewPath := pathNormalize newPath
  resolvedNewPath == normalizedNewPath
    || includesSub (pathBasename newPath (pathExtname newPath)).toList importPath.toList

/-- The reconstructed pre-move line (ts_move_file.ts:109-117): the first
occurrence of the import path replaced by the relative old path,
`./`-prefixed when not already relative. -/
def oldLineOf (file oldPath line importPath : String) : String :=
  let fileDir := pathDirname file
  let relativeOldPath :=
    String.mk ((pathRelative fileDir oldPath).toList.map fun c =>
      if c = '\\' then '/' else c)
  let replacement :=
    if strStartsWith relativeOldPath "." then relativeOldPath
    else "./" ++ relativeOldPath
  String.mk (replaceFirst line.toList importPath.toList replacement.toList)

/-- Body of the `while` loop over regex matches (ts_move_file.ts:99-127):
one matched import path contributes either a three-line diff fragment or
nothing. -/
def processMatch (file oldPath newPath line : String) (lineNum : Nat)
    (importPath : String) : List String :=
  if importCond file newPath importPath then
    let oldLine := oldLineOf file oldPath line importPath
    if oldLine ≠ line then
      ["    @@ -" ++ toString lineNum ++ ",1 +" ++ toString lineNum ++ ",1 @@",
       "    - " ++ oldLine,
       "    + " ++ line]
    else []
  else []

/-- All fragments contributed by one line. -/
def processLineMatches (file oldPath newPath line : String) (lineNum : Nat) :
    List String :=
  (execImports line).flatMap (processMatch file oldPath newPath line lineNum)

/-- The `importChanges` array of ts_move_file.ts:94-129: fragments of all
lines, in line order. -/
def importChangesOf (content file oldPath newPath : String) : List String :=
  (splitLines content).enum.flatMap fun p =>
    processLineMatches file oldPath newPath p.2 (p.1 + 1)

/-- The generic placeholder block. -/
def placeholderLine : String := "    Import statements updated"

/-- Embedding of `analyzeImportChanges` (ts_move_file.ts:73-134). -/
def analyzeImportChanges (readFs : String → Except String String)
    (file oldPath newPath : String) : Except String (List String) :=
  match readFs file with
  | .error _ => .ok [placeholderLine]
  | .ok content =>
    let importChanges := importChangesOf content file oldPath newPath
    .ok (if importChanges.length > 0 then importChanges else [placeholderLine])

/-- The early-return loop of ts_move_file.ts:174-179: first error wins,
otherwise the per-file blocks are concatenated in order. -/
def collectResults : List (Except String (List String)) → Except String (List String)
  | [] => .ok []
  | .error e :: _ => .error e
  | .ok v :: rest =>
    match collectResults rest with
    | .error e => .error e
    | .ok vs => .ok (v ++ vs)

/-- Embedding of `formatMoveFileResult` (ts_move_file.ts:136-182). -/
def formatMoveFileResult (readFs : String → Except String String)
    (result : MoveFileResult) (oldPath newPath root : String) :
    Except String String :=
  let output := [result.message ++ ". Updated imports in "
                   ++ toString result.changedFiles.length ++ " file(s).",
                 "", "Changes:"]
  let oldRelativePath := pathRelative root oldPath
  let newRelativePath := pathRelative root newPath
  let fileResults : List (Except String (List String)) :=
    result.changedFiles.map fun file =>
      if file = oldPath then
        .ok ["  File moved: " ++ oldRelativePath ++ " → " ++ newRelativePath]
      else
        let relativePath := pathRelative root file
        match analyzeImportChanges readFs file oldPath newPath with
        | .error e => .error e
        | .ok v => .ok (("  " ++ relativePath ++ ":") :: v)
  match collectResults fileResults with
  | .error e => .error e
  | .ok vs => .ok (String.intercalate "\n" (output ++ vs))

/-- The move report as the spec's words describe it (§6, caller-facing
operation 2): a summary line `<message>. Updated imports in N file(s).`,
a blank line, `Changes:`, then one block per changed file in order — the
moved file rendered as `File moved: old → new`, every other file as its
root-relative path followed by its fragment lines.  Stated independently
of `formatMoveFileResult` to compare the two. -/
def specMoveReport (readFs : String → Except String String)
    (result : MoveFileResult) (oldPath newPath root : String) : String :=
  String.intercalate "\n"
    ([result.message ++ ". Updated imports in "
        ++ toString result.changedFiles.length ++ " file(s).",
      "", "Changes:"]
     ++ result.changedFiles.flatMap fun file =>
          if file = oldPath then
            ["  File moved: " ++ pathRelative root oldPath ++ " → "
               ++ pathRelative root newPath]
          else
            ("  " ++ pathRelative root file ++ ":")
              :: (match analyzeImportChanges readFs file oldPath newPath with
                  | .ok v => v
                  | .error _ => []))

/-! ## Hover session coordinator (`lsp_get_hover`)

The LSP response shapes (`MarkedString | MarkedString[] | MarkupContent`)
become a tagged union; positions and ranges are structures of naturals.
The LSP client, the file system and the server's answer are injected
through `HoverEnv`; the calls the coordinator issues are recorded as a
list of `Ev` events. -/

inductive MarkupKind
  | plaintext
  | markdown
  deriving Repr, DecidableEq

/-- `MarkedString = string | \x7blanguage, value\x7d`. -/
inductive MarkedString
  | str (s : String)
  | lang (language value : String)
  deriving Repr, DecidableEq

/-- The union `MarkedString | MarkedString[] | MarkupContent` of possible
`contents` shapes. -/
inductive HoverContents
  | plain (s : String)
  | arr (l : List MarkedString)
  | markup (kind : MarkupKind) (value : String)
  deriving Repr, DecidableEq

structure HPos where
  line : Nat
  character : Nat
  deriving Repr, DecidableEq

/-- An LSP range; the source field `end` is a Lean keyword and is called
`stop` here. -/
structure HRange where
  start : HPos
  stop : HPos
  deriving Repr, DecidableEq

/-- The raw server answer (`HoverResult` in part_000). -/
structure HoverResult where
  contents : HoverContents
  range : Option HRange
  deriving Repr, DecidableEq

structure HoverAnswer where
  contents : String
  range : Option HRange
  deriving Repr, DecidableEq

/-- The normalized result type (`GetHoverSuccess` in part_000). -/
structure GetHoverSuccess where
  message : String
  hover : Option HoverAnswer
  deriving Repr, DecidableEq

/-- The `line` field of a request: a 1-based number or a substring. -/
inductive LineSpec
  | num (n : Int)
  | str (s : String)
  deriving Repr, DecidableEq

structure GetHoverRequest where
  root : String
  filePath : String
  line : Option LineSpec
  target : String
  deriving Repr, DecidableEq

/-- Embedding of `formatHoverContents` (part_000:213-233). -/
def formatHoverContents : HoverContents → String
  | .plain s => s
  | .arr l =>
    String.intercalate "\n"
      (l.map fun content =>
        match content with
        | .str s => s
        | .lang _ value => value)
  | .markup _ value => value

/-- Embedding of `formatHoverResult` (part_000:97-154).  The synthetic
whole-file range re-reads the file in the source; here the same content
is passed as `fileContent`. -/
def formatHoverResult (result : Option HoverResult) (request : GetHoverRequest)
    (targetLine symbolPosition : Nat) (fileContent : String) :
    Except String GetHoverSuccess :=
  match result with
  | none =>
    .ok ⟨"No hover information available for \"" ++ request.target ++ "\" at "
           ++ request.filePath ++ ":" ++ toString (targetLine + 1) ++ ":"
           ++ toString (symbolPosition + 1),
         none⟩
  | some res =>
    let formattedContents := formatHoverContents res.contents
    let range : HRange :=
      match res.range with
      | some r =>
        ⟨⟨r.start.line + 1, r.start.character + 1⟩,
         ⟨r.stop.line + 1, r.stop.character + 1⟩⟩
      | none =>
        let lines := splitLines fileContent
        ⟨⟨1, 1⟩,
         ⟨lines.length,
          match lines.getLast? with
          | some l => l.length
          | none => 0⟩⟩
    .ok ⟨"Hover information for \"" ++ request.target ++ "\" at "
           ++ request.filePath ++ ":" ++ toString (targetLine + 1) ++ ":"
           ++ toString (symbolPosition + 1),
         some ⟨formattedContents, some range⟩⟩

/-! ### Position resolution

`parseLineNumber`, `findSymbolInLine` and `findTargetInFile` live in
`src/ts/text_utils/`, which is not part of the shown sources; they are
modelled from the spec (§4.1). -/

/-- JavaScript word character, for `\b`-style boundaries. -/
def isWordChar (c : Char) : Bool := c.isAlphanum || c = '_'

/-- `target` occurs at offset `i` of `line` as a whole token: it is a
prefix of the suffix at `i` and both neighbours are non-word characters
or the ends of the line. -/
def tokenAt (line target : List Char) (i : Nat) : Bool :=
  target.isPrefixOf (line.drop i)
    && (i = 0 || !(isWordChar (line.getD (i - 1) ' ')))
    && (i + target.length ≥ line.length
          || !(isWordChar (line.getD (i + target.length) ' ')))

/-- Modelled from the spec: `findSymbolInLine` is imported from
`../../text_utils/findSymbolInLine.ts`, which is missing from the shown
sources.  Per §4.1 it prefers the first whole-token (word-boundary aware)
occurrence of `target` over a raw substring occurrence, and fails only
when `target` does not occur on the line at all. -/
def findSymbolInLine (line target : String) : Except String Nat :=
  let l := line.toList
  let t := target.toList
  match (List.range l.length).find? (fun i => tokenAt l t i) with
  | some i => .ok i
  | none =>
    match (List.range l.length).find? (fun i => t.isPrefixOf (l.drop i)) with
    | some i => .ok i
    | none => .error ("Symbol \"" ++ target ++ "\" not found")

/-- Modelled from the spec: `parseLineNumber` is imported from
`../../text_utils/parseLineNumber.ts`, which is missing from the shown
sources.  Per §4.1 a numeric spec must be a 1-based line number inside
`[1, lineCount]` and converts to a zero-based index; a string spec picks
the first line containing it as a substring. -/
def parseLineNumber (lines : List String) : LineSpec → Except String Nat
  | .num n =>
    if 1 ≤ n ∧ n ≤ lines.length then .ok (n - 1).toNat
    else .error ("Line " ++ toString n ++ " is out of range")
  | .str s =>
    match (lines.enum.find? fun p => includesSub s.toList p.2.toList) with
    | some p => .ok p.1
    | none => .error ("Line containing \"" ++ s ++ "\" not found")

/-- Modelled from the spec: `findTargetInFile` is imported from
`../../text_utils/findTargetInFile.ts`, which is missing from the shown
sources.  Per §4.1 it scans the whole file, line by line, for the first
line containing `target` and also returns the character position found
on that line. -/
def findTargetInFile (lines : List String) (target : String) :
    Except String (Nat × Nat) :=
  match (lines.enum.find? fun p => includesSub target.toList p.2.toList) with
  | some p =>
    match findSymbolInLine p.2 target with
    | .ok c => .ok (p.1, c)
    | .error e => .error e
  | none => .error ("Target \"" ++ target ++ "\" not found in file")

/-! ### The coordinator pipeline with an explicit event trace -/

/-- A call the coordinator makes against its collaborators. -/
inductive Ev
  | openDoc (uri text : String)
  | delayMs (n : Nat)
  | hoverReq (uri : String) (line character : Nat)
  deriving Repr, DecidableEq

/-- External collaborators of `getHover`: `getActiveClient` (which may
throw), `readFileSync` (which may throw) and the server's `getHover`
answer (which may reject). -/
structure HoverEnv where
  client : Except String Unit
  fileContent : Except String String
  serverAnswer : Except String (Option HoverResult)

/-- Embedding of `getHoverWithoutLine` (part_000:57-92): resolve the
target in the whole file, open the document, wait 1000 ms, query once. -/
def getHoverWithoutLineModel (env : HoverEnv) (req : GetHoverRequest) :
    Except String GetHoverSuccess × List Ev :=
  match env.client with
  | .error e => (.error e, [])
  | .ok _ =>
    match env.fileContent with
    | .error e => (.error e, [])
    | .ok fileContent =>
      let absolutePath := pathResolve req.root req.filePath
      let fileUri := "file://" ++ absolutePath
      let lines := splitLines fileContent
      match findTargetInFile lines req.target with
      | .error e => (.error (e ++ " in " ++ req.filePath), [])
      | .ok (targetLine, symbolPosition) =>
        let evs := [Ev.openDoc fileUri fileContent, Ev.delayMs 1000,
                    Ev.hoverReq fileUri targetLine symbolPosition]
        match env.serverAnswer with
        | .error e => (.error e, evs)
        | .ok result =>
          (formatHoverResult result req targetLine symbolPosition fileContent, evs)

/-- Embedding of `getHover` (part_000:159-208): with a `line` spec the
line is resolved first, then the symbol on it; the document is opened,
the 1000 ms settling delay awaited, and the single hover query issued. -/
def getHoverModel (env : HoverEnv) (req : GetHoverRequest) :
    Except String GetHoverSuccess × List Ev :=
  match req.line with
  | none => getHoverWithoutLineModel env req
  | some spec =>
    match env.client with
    | .error e => (.error e, [])
    | .ok _ =>
      match env.fileContent with
      | .error e => (.error e, [])
      | .ok fileContent =>
        let absolutePath := pathResolve req.root req.filePath
        let fileUri := "file://" ++ absolutePath
        let lines := splitLines fileContent
        match parseLineNumber lines spec with
        | .error e => (.error (e ++ " in " ++ req.filePath), [])
        | .ok targetLine =>
          let lineText := (lines.get? targetLine).getD ""
          match findSymbolInLine lineText req.target with
          | .error e => (.error (e ++ " on line " ++ toString (targetLine + 1)), [])
          | .ok symbolPosition =>
            let evs := [Ev.openDoc fileUri fileContent, Ev.delayMs 1000,
                        Ev.hoverReq fileUri targetLine symbolPosition]
            match env.serverAnswer with
            | .error e => (.error e, evs)
            | .ok result =>
              (formatHoverResult result req targetLine symbolPosition fileContent, evs)

/-! ## Helper lemmas -/

theorem findSymbolInLine_eq (line target : String) :
    findSymbolInLine line target =
      match (List.range line.toList.length).find?
          (fun i => tokenAt line.toList target.toList i) with
      | some i => .ok i
      | none =>
        match (List.range line.toList.length).find?
            (fun i => target.toList.isPrefixOf (line.toList.drop i)) with
        | some i => .ok i
        | none => .error ("Symbol \"" ++ target ++ "\" not found") := rfl

theorem sublist_flatMap_of_mem {α β : Type} {a : α} {l : List α}
    (h : a ∈ l) (f : α → List β) : (f a).Sublist (l.flatMap f) := by
  induction l with
  | nil => cases h
  | cons b t ih =>
    rcases List.mem_cons.1 h with rfl | h2
    · simp [List.sublist_append_left]
    · exact (ih h2).trans (by simp)

theorem analyzeImportChanges_isOk (readFs : String → Except String String)
    (file oldPath newPath : String) :
    ∃ v, analyzeImportChanges readFs file oldPath newPath = .ok v := by
  unfold analyzeImportChanges
  cases readFs file <;> simp

theorem collectResults_map_ok {α : Type} (g : α → Except String (List String))
    (f : α → List String) (l : List α) (h : ∀ x, g x = .ok (f x)) :
    collectResults (l.map g) = .ok (l.flatMap f) := by
  induction l with
  | nil => rfl
  | cons a t ih => simp [collectResults, h a, ih]

theorem formatMoveFileResult_eq_spec (readFs : String → Except String String)
    (result : MoveFileResult) (oldPath newPath root : String) :
    formatMoveFileResult readFs result oldPath newPath root =
      .ok (specMoveReport readFs result oldPath newPath root) := by
  have hc : collectResults (result.changedFiles.map fun file =>
      if file = oldPath then
        Except.ok ["  File moved: " ++ pathRelative root oldPath ++ " → "
           ++ pathRelative root newPath]
      else
        match analyzeImportChanges readFs file oldPath newPath with
        | .error e => .error e
        | .ok v => .ok (("  " ++ pathRelative root file ++ ":") :: v)) =
      .ok (result.changedFiles.flatMap fun file =>
        if file = oldPath then
          ["  File moved: " ++ pathRelative root oldPath ++ " → "
             ++ pathRelative root newPath]
        else
          ("  " ++ pathRelative root file ++ ":")
            :: (match analyzeImportChanges readFs file oldPath newPath with
                | .ok v => v
                | .error _ => [])) := by
    refine collectResults_map_ok _ _ _ fun file => ?_
    by_cases hf : file = oldPath
    · simp [hf]
    · obtain ⟨v, hv⟩ := analyzeImportChanges_isOk readFs file oldPath newPath
      simp [hf, hv]
  simp only [formatMoveFileResult, specMoveReport, hc]

/-! ## Claim theorems -/

/-- C1: when the preflight load of the source file fails, `handleMoveFile`
returns `File not found: <absolute old path>`, the delegated move
primitive is not attempted and `project.save()` is not invoked; when the
delegated move primitive returns an error, `handleMoveFile` returns that
error and `project.save()` is not invoked. -/
theorem C1_move_failure_mutates_nothing (env : MoveEnv)
    (root oldPath newPath : String) :
    (env.refreshThrows = true →
      handleMoveFile env root oldPath newPath =
        (.error ("File not found: " ++ pathJoin root oldPath), ⟨false, false⟩))
    ∧ (∀ e, env.refreshThrows = false → env.moveResult = .error e →
        handleMoveFile env root oldPath newPath = (.error e, ⟨true, false⟩)) := by
  constructor
  · intro h
    simp [handleMoveFile, h]
  · intro e h hm
    simp [handleMoveFile, h, hm]

theorem C1_move_failure_mutates_nothing_witness :
    handleMoveFile ⟨true, .error "x"⟩ "/r" "a.ts" "b.ts" =
      (.error ("File not found: " ++ pathJoin "/r" "a.ts"), ⟨false, false⟩)
    ∧ handleMoveFile ⟨false, .error "Destination file exists"⟩ "/r" "a.ts" "b.ts" =
      (.error "Destination file exists", ⟨true, false⟩) :=
  ⟨(C1_move_failure_mutates_nothing ⟨true, .error "x"⟩ "/r" "a.ts" "b.ts").1 rfl,
   (C1_move_failure_mutates_nothing ⟨false, .error "Destination file exists"⟩
      "/r" "a.ts" "b.ts").2 "Destination file exists" rfl rfl⟩

/-- C2: hover-contents normalization maps the plain string `s`, the
one-element array `[s]` and the markup object with value `s` to the same
output `s`; an array of fragments normalizes to the fragments' string
values joined by newline separators. -/
theorem C2_hover_contents_normalization (s : String) (k : MarkupKind)
    (l : List MarkedString) :
    formatHoverContents (.plain s) = s
    ∧ formatHoverContents (.arr [.str s]) = s
    ∧ formatHoverContents (.markup k s) = s
    ∧ formatHoverContents (.arr l) =
        String.intercalate "\n"
          (l.map fun c => match c with | .str v => v | .lang _ v => v) :=
  ⟨rfl, rfl, rfl, rfl⟩

/-- C5: the per-file import analysis of a changed file always returns a
non-empty ok block: a failed read yields exactly the generic placeholder,
a scan with no matching fragments yields exactly the generic placeholder,
and every run yields an ok, non-empty block. -/
theorem C5_per_file_analysis_always_nonempty
    (readFs : String → Except String String) (file oldPath newPath : String) :
    (∀ e, readFs file = .error e →
      analyzeImportChanges readFs file oldPath newPath = .ok [placeholderLine])
    ∧ (∀ content, readFs file = .ok content →
        importChangesOf content file oldPath newPath = [] →
        analyzeImportChanges readFs file oldPath newPath = .ok [placeholderLine])
    ∧ ∃ l, analyzeImportChanges readFs file oldPath newPath = .ok l ∧ l ≠ [] := by
  refine ⟨?_, ?_, ?_⟩
  · intro e he
    simp [analyzeImportChanges, he]
  · intro content hc hic
    simp [analyzeImportChanges, hc, hic]
  · unfold analyzeImportChanges
    cases h : readFs file with
    | error e => exact ⟨[placeholderLine], rfl, by simp⟩
    | ok content =>
      by_cases hlen : (importChangesOf content file oldPath newPath).length > 0
      · exact ⟨importChangesOf content file oldPath newPath, by simp [hlen],
          List.length_pos.mp hlen⟩
      · exact ⟨[placeholderLine], by simp [hlen], by simp⟩

theorem C5_per_file_analysis_always_nonempty_witness :
    analyzeImportChanges (fun _ => .error "ENOENT") "/r/c.ts" "/r/a.ts" "/r/b.ts"
      = .ok [placeholderLine]
    ∧ analyzeImportChanges (fun _ => .ok "const x = 1") "/r/c.ts" "/r/a.ts" "/r/b.ts"
      = .ok [placeholderLine]
    ∧ ∃ l, analyzeImportChanges (fun _ => .error "ENOENT") "/r/c.ts" "/r/a.ts" "/r/b.ts"
      = .ok l ∧ l ≠ [] :=
  ⟨(C5_per_file_analysis_always_nonempty (fun _ => .error "ENOENT")
      "/r/c.ts" "/r/a.ts" "/r/b.ts").1 "ENOENT" rfl,
   (C5_per_file_analysis_always_nonempty (fun _ => .ok "const x = 1")
      "/r/c.ts" "/r/a.ts" "/r/b.ts").2.1 "const x = 1" rfl rfl,
   (C5_per_file_analysis_always_nonempty (fun _ => .error "ENOENT")
      "/r/c.ts" "/r/a.ts" "/r/b.ts").2.2⟩

/-- C7: the formatted move report is exactly the spec's shape — the
summary line `<message>. Updated imports in N file(s).` with `N` the
number of changed files, a blank line, `Changes:`, then one block per
changed file in order, the moved file rendered as `File moved: old → new`
and every other file as its root-relative path followed by its fragment
lines. -/
theorem C7_report_shape (readFs : String → Except String String)
    (result : MoveFileResult) (oldPath newPath root : String) :
    formatMoveFileResult readFs result oldPath newPath root =
      .ok (specMoveReport readFs result oldPath newPath root) :=
  formatMoveFileResult_eq_spec readFs result oldPath newPath root

/-- C10: formatting a move report cannot fail — `analyzeImportChanges`
returns ok on every path and so does `formatMoveFileResult` — and a
matched import line contributes a diff fragment only when the
reconstructed old line differs from the current line. -/
theorem C10_report_never_fails :
    (∀ readFs file oldPath newPath, ∃ v,
        analyzeImportChanges readFs file oldPath newPath = .ok v)
    ∧ (∀ readFs result oldPath newPath root, ∃ s,
        formatMoveFileResult readFs result oldPath newPath root = .ok s)
    ∧ (∀ file oldPath newPath line lineNum importPath,
        oldLineOf file oldPath line importPath = line →
        processMatch file oldPath newPath line lineNum importPath = [])
    ∧ (∀ file oldPath newPath line lineNum importPath,
        processMatch file oldPath newPath line lineNum importPath ≠ [] →
        importCond file newPath importPath = true
          ∧ oldLineOf file oldPath line importPath ≠ line) := by
  refine ⟨fun readFs file oldPath newPath =>
      analyzeImportChanges_isOk readFs file oldPath newPath,
    fun readFs result oldPath newPath root =>
      ⟨_, formatMoveFileResult_eq_spec readFs result oldPath newPath root⟩,
    ?_, ?_⟩
  · intro file oldPath newPath line lineNum importPath h
    simp [processMatch, h]
  · intro file oldPath newPath line lineNum importPath h
    by_cases hc : importCond file newPath importPath
    · by_cases hne : oldLineOf file oldPath line importPath = line
      · exact absurd (by simp [processMatch, hc, hne]) h
      · exact ⟨hc, hne⟩
    · exact absurd (by simp [processMatch, hc]) h

/-- C6 counterexample: the claim promises a three-line fragment for
every import line whose quoted path matches the heuristic, but for the
line `import \x7bx\x7d from "./a.ts"` in `/r/c.ts` after moving
`/r/a.ts` to `/r/sub/a.ts` the import path `./a.ts` is captured and
satisfies the matching condition, yet no fragment is emitted (the
reconstructed old line equals the current line) and the analysis returns
only the placeholder. -/
theorem C6_matched_line_no_fragment :
    execImports "import \x7bx\x7d from \"./a.ts\"" = ["./a.ts"]
    ∧ importCond "/r/c.ts" "/r/sub/a.ts" "./a.ts" = true
    ∧ importChangesOf "import \x7bx\x7d from \"./a.ts\"" "/r/c.ts" "/r/a.ts"
        "/r/sub/a.ts" = []
    ∧ analyzeImportChanges (fun _ => .ok "import \x7bx\x7d from \"./a.ts\"")
        "/r/c.ts" "/r/a.ts" "/r/sub/a.ts" = .ok [placeholderLine] :=
  ⟨by decide, by decide, by decide, rfl⟩

/-- C6 (amended): for every import line whose captured path matches the
heuristic condition AND whose reconstructed old line differs from the
current line, the analysis emits the three-line fragment — the
`@@ -n,1 +n,1 @@` header, the `-` line with the import path replaced by
the computed old relative path, and the `+` line with the current line —
and that fragment occurs inside the analysis output for the file. -/
theorem C6_matched_line_fragment
    (file oldPath newPath content line importPath : String) (i : Nat)
    (hline : (i, line) ∈ (splitLines content).enum)
    (hcap : importPath ∈ execImports line)
    (hcond : importCond file newPath importPath = true)
    (hne : oldLineOf file oldPath line importPath ≠ line) :
    processMatch file oldPath newPath line (i + 1) importPath =
      ["    @@ -" ++ toString (i + 1) ++ ",1 +" ++ toString (i + 1) ++ ",1 @@",
       "    - " ++ oldLineOf file oldPath line importPath,
       "    + " ++ line]
    ∧ (processMatch file oldPath newPath line (i + 1) importPath).Sublist
        (importChangesOf content file oldPath newPath) := by
  constructor
  · simp [processMatch, hcond, hne]
  · have h1 : (processMatch file oldPath newPath line (i + 1) importPath).Sublist
        (processLineMatches file oldPath newPath line (i + 1)) :=
      sublist_flatMap_of_mem hcap _
    have h2 : (processLineMatches file oldPath newPath line (i + 1)).Sublist
        (importChangesOf content file oldPath newPath) :=
      sublist_flatMap_of_mem hline
        (fun p => processLineMatches file oldPath newPath p.2 (p.1 + 1))
    exact h1.trans h2

theorem C6_matched_line_fragment_witness :
    processMatch "/r/c.ts" "/r/a.ts" "/r/sub/a.ts"
        "import \x7by\x7d from \"./sub/a\"" (0 + 1) "./sub/a" =
      ["    @@ -" ++ toString (0 + 1) ++ ",1 +" ++ toString (0 + 1) ++ ",1 @@",
       "    - " ++ oldLineOf "/r/c.ts" "/r/a.ts"
           "import \x7by\x7d from \"./sub/a\"" "./sub/a",
       "    + " ++ "import \x7by\x7d from \"./sub/a\""]
    ∧ (processMatch "/r/c.ts" "/r/a.ts" "/r/sub/a.ts"
        "import \x7by\x7d from \"./sub/a\"" (0 + 1) "./sub/a").Sublist
        (importChangesOf "import \x7by\x7d from \"./sub/a\"" "/r/c.ts" "/r/a.ts"
          "/r/sub/a.ts") :=
  C6_matched_line_fragment "/r/c.ts" "/r/a.ts" "/r/sub/a.ts"
    "import \x7by\x7d from \"./sub/a\"" "import \x7by\x7d from \"./sub/a\""
    "./sub/a" 0 (by decide) (by decide) (by decide) (by decide)

theorem C10_report_never_fails_witness :
    processMatch "/r/c.ts" "/r/a.ts" "/r/sub/a.ts"
      "import \x7bx\x7d from \"./a.ts\"" 1 "./a.ts" = []
    ∧ (importCond "/r/c.ts" "/r/sub/a.ts" "./sub/a" = true
        ∧ oldLineOf "/r/c.ts" "/r/a.ts" "import \x7by\x7d from \"./sub/a\"" "./sub/a"
            ≠ "import \x7by\x7d from \"./sub/a\"") :=
  ⟨C10_report_never_fails.2.2.1 "/r/c.ts" "/r/a.ts" "/r/sub/a.ts"
      "import \x7bx\x7d from \"./a.ts\"" 1 "./a.ts" rfl,
   C10_report_never_fails.2.2.2 "/r/c.ts" "/r/a.ts" "/r/sub/a.ts"
      "import \x7by\x7d from \"./sub/a\"" 1 "./sub/a" (by decide)⟩

/-- C4: for a non-null hover result, a server-supplied range is reported
with 1 added to each coordinate; an absent range is replaced by the
synthetic whole-file range from (1, 1) to (number of lines when the file
text is split on newline, length of the last line). -/
theorem C4_range_normalization (res : HoverResult) (req : GetHoverRequest)
    (targetLine symbolPosition : Nat) (fc : String) :
    (∀ r, res.range = some r →
      formatHoverResult (some res) req targetLine symbolPosition fc =
        .ok ⟨"Hover information for \"" ++ req.target ++ "\" at "
               ++ req.filePath ++ ":" ++ toString (targetLine + 1) ++ ":"
               ++ toString (symbolPosition + 1),
             some ⟨formatHoverContents res.contents,
               some ⟨⟨r.start.line + 1, r.start.character + 1⟩,
                     ⟨r.stop.line + 1, r.stop.character + 1⟩⟩⟩⟩)
    ∧ (res.range = none →
      formatHoverResult (some res) req targetLine symbolPosition fc =
        .ok ⟨"Hover information for \"" ++ req.target ++ "\" at "
               ++ req.filePath ++ ":" ++ toString (targetLine + 1) ++ ":"
               ++ toString (symbolPosition + 1),
             some ⟨formatHoverContents res.contents,
               some ⟨⟨1, 1⟩,
                     ⟨(splitLines fc).length,
                      ((splitLines fc).getLastD "").length⟩⟩⟩⟩) := by
  constructor
  · intro r hr
    simp [formatHoverResult, hr]
  · intro hr
    simp only [formatHoverResult, hr]
    cases h : (splitLines fc).getLast? with
    | none => simp [h, List.getLastD_eq_getLast?]
    | some l => simp [h, List.getLastD_eq_getLast?]

theorem C4_range_normalization_witness :
    formatHoverResult
        (some ⟨.plain "sig", some ⟨⟨4, 2⟩, ⟨4, 9⟩⟩⟩)
        ⟨"/r", "foo.ts", none, "bar"⟩ 4 2 "l1\nl2" =
      .ok ⟨"Hover information for \"bar\" at foo.ts:5:3",
           some ⟨"sig", some ⟨⟨5, 3⟩, ⟨5, 10⟩⟩⟩⟩
    ∧ formatHoverResult
        (some ⟨.plain "sig", none⟩)
        ⟨"/r", "foo.ts", none, "bar"⟩ 4 2 "l1\nl2" =
      .ok ⟨"Hover information for \"bar\" at foo.ts:5:3",
           some ⟨"sig", some ⟨⟨1, 1⟩, ⟨2, 2⟩⟩⟩⟩ :=
  ⟨(C4_range_normalization ⟨.plain "sig", some ⟨⟨4, 2⟩, ⟨4, 9⟩⟩⟩
      ⟨"/r", "foo.ts", none, "bar"⟩ 4 2 "l1\nl2").1 ⟨⟨4, 2⟩, ⟨4, 9⟩⟩ rfl,
   (C4_range_normalization ⟨.plain "sig", none⟩
      ⟨"/r", "foo.ts", none, "bar"⟩ 4 2 "l1\nl2").2 rfl⟩

/-- C3: when the server answers null the coordinator returns success with
a null hover and the exact message `No hover information available for
"<target>" at <filePath>:<line>:<column>` (one-based); an ok result with
a null hover can only come from a null server answer; a missing client
session or an unreadable file surfaces as an error, never as a null-hover
success. -/
theorem C3_null_hover_is_success :
    (∀ (req : GetHoverRequest) (targetLine symbolPosition : Nat) (fc : String),
      formatHoverResult none req targetLine symbolPosition fc =
        .ok ⟨"No hover information available for \"" ++ req.target ++ "\" at "
               ++ req.filePath ++ ":" ++ toString (targetLine + 1) ++ ":"
               ++ toString (symbolPosition + 1), none⟩)
    ∧ (∀ (env : HoverEnv) (req : GetHoverRequest) (s : GetHoverSuccess),
        (getHoverModel env req).1 = .ok s → s.hover = none →
        env.serverAnswer = .ok none)
    ∧ (∀ (env : HoverEnv) (req : GetHoverRequest) (e : String),
        env.client = .error e → (getHoverModel env req).1 = .error e)
    ∧ (∀ (env : HoverEnv) (req : GetHoverRequest) (e : String),
        env.client = .ok () → env.fileContent = .error e →
        (getHoverModel env req).1 = .error e) := by
  refine ⟨fun req tl sp fc => rfl, ?_, ?_, ?_⟩
  · rintro ⟨c, f, a⟩ ⟨root, fp, line, tgt⟩ s hok hnone
    cases line <;>
      simp only [getHoverModel, getHoverWithoutLineModel] at hok <;>
      (repeat' split at hok) <;>
      (try simp only [formatHoverResult] at hok) <;>
      (repeat' split at hok) <;>
      (try injection hok with hok) <;>
      (try rw [← hok] at hnone) <;>
      simp_all
  · rintro ⟨c, f, a⟩ ⟨root, fp, line, tgt⟩ e he
    cases line <;> simp_all [getHoverModel, getHoverWithoutLineModel]
  · rintro ⟨c, f, a⟩ ⟨root, fp, line, tgt⟩ e hc he
    cases line <;> simp_all [getHoverModel, getHoverWithoutLineModel]

theorem C3_null_hover_is_success_witness :
    formatHoverResult none ⟨"/r", "foo.ts", none, "bar"⟩ 4 7 "x" =
      .ok ⟨"No hover information available for \"bar\" at foo.ts:5:8", none⟩
    ∧ (⟨.ok (), .ok "foo", .ok none⟩ : HoverEnv).serverAnswer = .ok none
    ∧ (getHoverModel ⟨.error "No active client", .ok "foo", .ok none⟩
        ⟨"/r", "foo.ts", none, "foo"⟩).1 = .error "No active client"
    ∧ (getHoverModel ⟨.ok (), .error "ENOENT", .ok none⟩
        ⟨"/r", "foo.ts", none, "foo"⟩).1 = .error "ENOENT" :=
  ⟨C3_null_hover_is_success.1 ⟨"/r", "foo.ts", none, "bar"⟩ 4 7 "x",
   C3_null_hover_is_success.2.1 ⟨.ok (), .ok "foo", .ok none⟩
     ⟨"/r", "foo.ts", none, "foo"⟩
     ⟨"No hover information available for \"foo\" at foo.ts:1:1", none⟩ rfl rfl,
   C3_null_hover_is_success.2.2.1 ⟨.error "No active client", .ok "foo", .ok none⟩
     ⟨"/r", "foo.ts", none, "foo"⟩ "No active client" rfl,
   C3_null_hover_is_success.2.2.2 ⟨.ok (), .error "ENOENT", .ok none⟩
     ⟨"/r", "foo.ts", none, "foo"⟩ "ENOENT" rfl rfl⟩

/-- C8: in every hover invocation the trace of collaborator calls is
either empty (a failure before the document was opened) or exactly
`openDocument`, the fixed 1000 ms settling delay, then a single
`getHover` — so exactly one hover query is issued per caller request and
`openDocument` is never called after `getHover`. -/
theorem C8_open_delay_hover_order (env : HoverEnv) (req : GetHoverRequest) :
    (getHoverModel env req).2 = []
    ∨ ∃ u t l c, (getHoverModel env req).2 =
        [Ev.openDoc u t, Ev.delayMs 1000, Ev.hoverReq u l c] := by
  rcases req with ⟨root, fp, line, tgt⟩
  cases line <;>
    simp only [getHoverModel, getHoverWithoutLineModel] <;>
    (repeat' split) <;>
    first
      | (left; rfl)
      | (right; exact ⟨_, _, _, _, rfl⟩)

/-- C9 (spec-modelled): on a line where the non-empty target occurs as a
whole token, symbol resolution returns the index of a whole-token
occurrence — never an embedded-substring one — and it returns an error
exactly when the target occurs nowhere on the line, not even as a
substring. -/
theorem C9_whole_token_preferred (line target : String) (hne : target ≠ "") :
    ((∃ i, tokenAt line.toList target.toList i = true) →
      ∃ i, findSymbolInLine line target = .ok i
        ∧ tokenAt line.toList target.toList i = true)
    ∧ ((∃ e, findSymbolInLine line target = .error e) ↔
        ∀ i, target.toList.isPrefixOf (line.toList.drop i) = false) := by
  have ht : target.toList ≠ [] := fun h => hne (String.ext h)
  have hstop : ∀ i, target.toList.isPrefixOf (line.toList.drop i) = true →
      i < line.toList.length := by
    intro i hp
    by_contra hge
    push_neg at hge
    rw [List.drop_eq_nil_of_le hge] at hp
    cases htl : target.toList with
    | nil => exact ht htl
    | cons a as => rw [htl] at hp; simp [List.isPrefixOf] at hp
  have htok_pre : ∀ i, tokenAt line.toList target.toList i = true →
      target.toList.isPrefixOf (line.toList.drop i) = true := by
    intro i h
    simp only [tokenAt, Bool.and_eq_true] at h
    exact h.1.1
  constructor
  · rintro ⟨i, hi⟩
    have hlt : i < line.toList.length := hstop i (htok_pre i hi)
    cases hfind : (List.range line.toList.length).find?
        (fun j => tokenAt line.toList target.toList j) with
    | none =>
      exact absurd hi (List.find?_eq_none.mp hfind i (List.mem_range.mpr hlt))
    | some j =>
      refine ⟨j, ?_, List.find?_some hfind⟩
      rw [findSymbolInLine_eq, hfind]
  · constructor
    · rintro ⟨e, he⟩ i
      by_contra hp
      rw [Bool.not_eq_false] at hp
      have hlt := hstop i hp
      rw [findSymbolInLine_eq] at he
      cases hf1 : (List.range line.toList.length).find?
          (fun j => tokenAt line.toList target.toList j) with
      | some j => rw [hf1] at he; simp at he
      | none =>
        rw [hf1] at he
        cases hf2 : (List.range line.toList.length).find?
            (fun j => target.toList.isPrefixOf (line.toList.drop j)) with
        | some j => rw [hf2] at he; simp at he
        | none =>
          exact (List.find?_eq_none.mp hf2 i (List.mem_range.mpr hlt)) hp
    · intro hall
      refine ⟨"Symbol \"" ++ target ++ "\" not found", ?_⟩
      have h1 : (List.range line.toList.length).find?
          (fun j => tokenAt line.toList target.toList j) = none :=
        List.find?_eq_none.mpr fun j _ hj => by
          have hpre := htok_pre j hj
          rw [hall j] at hpre
          simp at hpre
      have h2 : (List.range line.toList.length).find?
          (fun j => target.toList.isPrefixOf (line.toList.drop j)) = none :=
        List.find?_eq_none.mpr fun j _ hj => by
          rw [hall j] at hj
          simp at hj
      rw [findSymbolInLine_eq, h1, h2]

theorem C9_whole_token_preferred_witness :
    (∃ i, findSymbolInLine "foobar foo" "foo" = .ok i
      ∧ tokenAt "foobar foo".toList "foo".toList i = true)
    ∧ "xyz".toList.isPrefixOf ("abc".toList.drop 1) = false :=
  ⟨(C9_whole_token_preferred "foobar foo" "foo" (by decide)).1 ⟨7, by decide⟩,
   (C9_whole_token_preferred "abc" "xyz" (by decide)).2.mp
     ⟨"Symbol \"xyz\" not found", rfl⟩ 1⟩

end TsMcp
